import Mathlib

/-!
Verification development for the `httprouter` request router.

The router (`router.go`) is embedded directly from its source: `Params.ByName`,
`New`, `Handle`, `Lookup`, `allowed` and the dispatch policy of `ServeHTTP`
become pure Lean functions.  Handlers are opaque and represented by numeric
identifiers; a request outcome is reified into an explicit `Outcome` datatype.

The matching trie (`addRoute`, `getValue`, `findCaseInsensitivePath`) and the
path normalizer (`CleanPath`) live in source files that are not part of this
repository snapshot; they are modelled from the specification (spec sections
3, 4.1-4.4), as stated in their doc comments.
-/

namespace Httprouter

/-- Param is a single URL parameter, consisting of a key and a value
(from `router.go`). -/
structure Param where
  key : String
  value : String
deriving DecidableEq, Repr

/-- Params is a Param-slice, as returned by the router (from `router.go`). -/
abbrev Params := List Param

/-- `Params.ByName` from `router.go`: the value of the first Param whose key
matches the given name, or the empty string if none matches. -/
def byName : Params → String → String
  | [], _ => ""
  | p :: ps, name => if p.key = name then p.value else byName ps name

/-- Handlers are opaque values; we represent them by numeric identifiers. -/
abbrev Handler := Nat

/-- Modelled from the spec: the kind of a trie node (spec section 3, Data
Model); the node kinds `Static`, `Param` and `CatchAll`.  The trie source
file is not included in the repository snapshot. -/
inductive NodeKind : Type where
  | static : NodeKind
  | param : NodeKind
  | catchAll : NodeKind
deriving DecidableEq, Repr

/-- Modelled from the spec: a radix-trie node (spec section 3, Data Model).
`segment` holds the literal text for a static node and the parameter name
for a wildcard node.  The priority / indices bookkeeping described by the
spec is an optimization that only affects sibling visit order and is
omitted; children are visited in insertion order. -/
inductive Node : Type where
  | mk (segment : List Char) (kind : NodeKind) (children : List Node)
      (handler : Option Handler)

def Node.segment : Node → List Char
  | .mk s _ _ _ => s

def Node.kind : Node → NodeKind
  | .mk _ k _ _ => k

def Node.children : Node → List Node
  | .mk _ _ c _ => c

def Node.handler : Node → Option Handler
  | .mk _ _ _ h => h

def emptyNode : Node := .mk [] .static [] none

def isStaticSeg (c : Node) : Bool :=
  match c.kind with
  | .static => true
  | _ => false

def isWild (c : Node) : Bool :=
  match c.kind with
  | .param => true
  | .catchAll => true
  | _ => false

def isCatch (c : Node) : Bool :=
  match c.kind with
  | .catchAll => true
  | _ => false

/-- Modelled from the spec: whether the same path extended with a trailing
slash would resolve to a registered handler (spec section 4.3): either a
literal `/` child carrying a handler exists, or a catch-all child exists. -/
def tsrCheck (n : Node) : Bool :=
  n.children.any fun c =>
    (isStaticSeg c && c.segment == ['/'] && c.handler.isSome) || isCatch c

/-- Modelled from the spec: a route pattern token; literal text, a named
parameter, or a trailing catch-all (spec sections 4.2 and 6). -/
inductive Tok : Type where
  | static (s : List Char) : Tok
  | param (name : List Char) : Tok
  | catchAll (name : List Char) : Tok
deriving DecidableEq, Repr

/-- Modelled from the spec: parsing a route pattern into tokens
(spec sections 4.2 and 6).  A wildcard name runs until the next `/` or the
end of the pattern; a catch-all must be the final segment and is preceded
by a `/`, which the catch-all consumes as part of its matched value. -/
def parseToks : Nat → List Char → Except String (List Tok)
  | 0, _ => .error "pattern parsing fuel exhausted"
  | fuel+1, p =>
    let stat := p.takeWhile fun c => c != ':' && c != '*'
    let rest := p.dropWhile fun c => c != ':' && c != '*'
    match rest with
    | [] => .ok (if stat.isEmpty then [] else [.static stat])
    | ':' :: r =>
      let name := r.takeWhile (· != '/')
      let r2 := r.dropWhile (· != '/')
      if name.isEmpty then .error "param must be named with a non-empty name"
      else do
        let ts ← parseToks fuel r2
        .ok ((if stat.isEmpty then [] else [.static stat]) ++ .param name :: ts)
    | '*' :: r =>
      if r.isEmpty then .error "catch-all must be named with a non-empty name"
      else if r.any (· = '/') then .error "catch-all routes are only allowed at the end of the path"
      else if stat.getLast? != some '/' then .error "no / before catch-all"
      else .ok ((if stat.dropLast.isEmpty then [] else [.static stat.dropLast]) ++ [.catchAll r])
    | _ :: _ => .error "unreachable"

/-- Longest common starting run of two character lists. -/
def sharedStart : List Char → List Char → List Char
  | a :: as, b :: bs => if a = b then a :: sharedStart as bs else []
  | _, _ => []

/-- Modelled from the spec: build a fresh chain of nodes for a remaining
token list, attaching the handler at the final node (spec section 4.2,
the append-new-child case). -/
def buildChain : List Tok → Handler → Node
  | [], h => Node.mk [] .static [] (some h)
  | [Tok.static s], h => Node.mk s .static [] (some h)
  | [Tok.param name], h => Node.mk name .param [] (some h)
  | [Tok.catchAll name], h => Node.mk name .catchAll [] (some h)
  | Tok.static s :: t :: rest, h => Node.mk s .static [buildChain (t :: rest) h] none
  | Tok.param name :: t :: rest, h => Node.mk name .param [buildChain (t :: rest) h] none
  | Tok.catchAll name :: t :: rest, h => Node.mk name .catchAll [buildChain (t :: rest) h] none

/-- Modelled from the spec: trie insertion below a node whose own segment is
already fully matched (spec section 4.2).  Splits static nodes at the
longest common prefix, appends fresh chains for unmatched remainders, and
fails on duplicate routes and on conflicting wildcards at the same trie
position. -/
def insertAt : Nat → Node → List Tok → Handler → Except String Node
  | 0, _, _, _ => .error "insertion fuel exhausted"
  | _+1, n, [], h =>
    match n.handler with
    | some _ => .error "a handler is already registered for this path"
    | none => .ok (Node.mk n.segment n.kind n.children (some h))
  | fuel+1, n, .static s :: rest, h =>
    match n.children.findIdx? (fun c => isStaticSeg c && c.segment.head? == s.head?) with
    | none =>
      .ok (Node.mk n.segment n.kind (n.children ++ [buildChain (.static s :: rest) h]) n.handler)
    | some i =>
      match n.children[i]? with
      | none => .error "child index out of range"
      | some c =>
        let lcp := sharedStart s c.segment
        let s2 := s.drop lcp.length
        if lcp.length = c.segment.length then do
          let c2 ← insertAt fuel c (if s2.isEmpty then rest else .static s2 :: rest) h
          .ok (Node.mk n.segment n.kind (n.children.set i c2) n.handler)
        else do
          let cSplit := Node.mk (c.segment.drop lcp.length) c.kind c.children c.handler
          let cNew := Node.mk lcp .static [cSplit] none
          let c2 ← insertAt fuel cNew (if s2.isEmpty then rest else .static s2 :: rest) h
          .ok (Node.mk n.segment n.kind (n.children.set i c2) n.handler)
  | fuel+1, n, .param name :: rest, h =>
    match n.children.findIdx? isWild with
    | some i =>
      match n.children[i]? with
      | none => .error "child index out of range"
      | some c =>
        if c.kind = .param ∧ c.segment = name then do
          let c2 ← insertAt fuel c rest h
          .ok (Node.mk n.segment n.kind (n.children.set i c2) n.handler)
        else .error "conflicting wildcard at the same trie position"
    | none =>
      .ok (Node.mk n.segment n.kind (n.children ++ [buildChain (.param name :: rest) h]) n.handler)
  | _+1, n, .catchAll name :: _, h =>
    match n.children.findIdx? isWild with
    | some _ => .error "conflicting wildcard at the same trie position"
    | none =>
      .ok (Node.mk n.segment n.kind (n.children ++ [buildChain [.catchAll name] h]) n.handler)

/-- Modelled from the spec: `addRoute` (spec section 4.2); the trie source
file is not included in the repository snapshot.  Parses the pattern and
inserts it below the given root, failing on malformed patterns, duplicate
routes and wildcard conflicts. -/
def addRoute (root : Node) (pattern : String) (h : Handler) : Except String Node := do
  let toks ← parseToks (pattern.length + 2) pattern.data
  insertAt (2 * pattern.length + 8) root toks h

/-- Modelled from the spec: exact lookup descent (`getValue`, spec section
4.3); the trie source file is not included in the repository snapshot.
Consumes the node segment, descends into static children first and then the
wildcard child, extracts parameter values, and reports a trailing-slash
redirect recommendation at the boundaries the spec describes. -/
def getValueAux : Nat → Node → List Char → Params → Option Handler × Params × Bool
  | 0, _, _, _ => (none, [], false)
  | fuel+1, n, path, ps =>
    match n.kind with
    | .static =>
      if n.segment.isPrefixOf path then
        let rest := path.drop n.segment.length
        if rest.isEmpty then
          match n.handler with
          | some h => (some h, ps, false)
          | none => (none, [], tsrCheck n)
        else
          match n.children.find? (fun c => isStaticSeg c && c.segment.head? == rest.head?) with
          | some c => getValueAux fuel c rest ps
          | none =>
            match n.children.find? isWild with
            | some c => getValueAux fuel c rest ps
            | none => (none, [], rest == ['/'] && n.handler.isSome)
      else
        (none, [], (path ++ ['/'] == n.segment) && n.handler.isSome)
    | .param =>
      let value := path.takeWhile (· != '/')
      let rest := path.dropWhile (· != '/')
      let ps2 := ps ++ [Param.mk (String.mk n.segment) (String.mk value)]
      if rest.isEmpty then
        match n.handler with
        | some h => (some h, ps2, false)
        | none => (none, [], tsrCheck n)
      else
        match n.children.find? (fun c => isStaticSeg c && c.segment.head? == rest.head?) with
        | some c => getValueAux fuel c rest ps2
        | none =>
          match n.children.find? isWild with
          | some c => getValueAux fuel c rest ps2
          | none => (none, [], rest == ['/'] && n.handler.isSome)
    | .catchAll =>
      match n.handler with
      | some h => (some h, ps ++ [Param.mk (String.mk n.segment) (String.mk path)], false)
      | none => (none, [], false)

/-- Modelled from the spec: `getValue` over a trie root (spec sections 4.3
and 6): returns the matched handler (if any), the extracted parameters, and
the trailing-slash-redirect recommendation. -/
def getValue (root : Node) (path : String) : Option Handler × Params × Bool :=
  getValueAux (2 * path.length + 8) root path.data []

/-- Case-insensitive equality of character lists. -/
def ciEq (a b : List Char) : Bool :=
  a.map Char.toLower == b.map Char.toLower

/-- Modelled from the spec: case-insensitive recovery descent
(`findCaseInsensitivePath`, spec section 4.4); the trie source file is not
included in the repository snapshot.  Static comparisons are
case-insensitive and the output accumulates the originally registered
casing; wildcard values are copied verbatim from the input; a trailing
slash discrepancy is fixed when `fixTS` is set. -/
def findCIAux : Nat → Node → List Char → Bool → Option (List Char)
  | 0, _, _, _ => none
  | fuel+1, n, path, fixTS =>
    match n.kind with
    | .static =>
      if ciEq n.segment (path.take n.segment.length) ∧ n.segment.length ≤ path.length then
        let rest := path.drop n.segment.length
        if rest.isEmpty then
          if n.handler.isSome then some n.segment
          else if fixTS && tsrCheck n then some (n.segment ++ ['/'])
          else none
        else
          match n.children.find? (fun c =>
              isStaticSeg c && (c.segment.head?.map Char.toLower == rest.head?.map Char.toLower)) with
          | some c => (findCIAux fuel c rest fixTS).map (n.segment ++ ·)
          | none =>
            match n.children.find? isWild with
            | some c => (findCIAux fuel c rest fixTS).map (n.segment ++ ·)
            | none =>
              if fixTS && rest == ['/'] && n.handler.isSome then some n.segment else none
      else
        if fixTS && ciEq (path ++ ['/']) n.segment && n.handler.isSome then some n.segment
        else none
    | .param =>
      let value := path.takeWhile (· != '/')
      let rest := path.dropWhile (· != '/')
      if rest.isEmpty then
        if n.handler.isSome then some value
        else if fixTS && tsrCheck n then some (value ++ ['/'])
        else none
      else
        match n.children.find? (fun c =>
            isStaticSeg c && (c.segment.head?.map Char.toLower == rest.head?.map Char.toLower)) with
        | some c => (findCIAux fuel c rest fixTS).map (value ++ ·)
        | none =>
          match n.children.find? isWild with
          | some c => (findCIAux fuel c rest fixTS).map (value ++ ·)
          | none =>
            if fixTS && rest == ['/'] && n.handler.isSome then some value else none
    | .catchAll =>
      if n.handler.isSome then some path else none

/-- Modelled from the spec: `findCaseInsensitivePath` over a trie root
(spec sections 4.4 and 6). -/
def findCI (root : Node) (path : List Char) (fixTS : Bool) : Option (List Char) :=
  findCIAux (2 * path.length + 8) root path fixTS

/-- Split a character list at every slash. -/
def splitSlash : List Char → List (List Char)
  | [] => [[]]
  | c :: rest =>
    if c = '/' then [] :: splitSlash rest
    else
      match splitSlash rest with
      | [] => [[c]]
      | s :: ss => (c :: s) :: ss

/-- Modelled from the spec: segment resolution of the path cleaner (spec
section 4.1): empty segments (consecutive slashes) and `.` segments are
dropped, `..` pops the previous segment clamped at the root.  The
accumulator holds the kept segments in reverse. -/
def resolveSegs : List (List Char) → List (List Char) → List (List Char)
  | acc, [] => acc.reverse
  | acc, s :: rest =>
    if s = [] ∨ s = ['.'] then resolveSegs acc rest
    else if s = ['.', '.'] then resolveSegs acc.tail rest
    else resolveSegs (s :: acc) rest

/-- Join segments with slashes. -/
def joinSegs : List (List Char) → List Char
  | [] => []
  | [s] => s
  | s :: t :: rest => s ++ '/' :: joinSegs (t :: rest)

/-- Modelled from the spec: `CleanPath` (spec section 4.1); its source file
is not included in the repository snapshot.  Returns a canonical absolute
path: collapses consecutive slashes, removes `.` segments, resolves `..`
segments clamped at the root, always starts with `/`; the empty input
yields `/`. -/
def cleanPath (p : String) : String :=
  String.mk ('/' :: joinSegs (resolveSegs [] (splitSlash p.data)))

/-- A path segment that survives resolution: non-empty and neither `.` nor
`..`. -/
def goodSeg (s : List Char) : Prop :=
  s ≠ [] ∧ s ≠ ['.'] ∧ s ≠ ['.', '.']

/-- The Router of `router.go`: per-method trees (the Go map is modelled as
an association list), the four configuration flags, and the three optional
custom handlers. -/
structure Router where
  trees : List (String × Node)
  redirectTrailingSlash : Bool
  redirectFixedPath : Bool
  handleMethodNotAllowed : Bool
  handleOptions : Bool
  notFound : Option Handler
  methodNotAllowed : Option Handler
  panicHandler : Option Handler

/-- Association-list lookup, modelling `r.trees[method]`. -/
def assocFind : List (String × Node) → String → Option Node
  | [], _ => none
  | (m, n) :: rest, method => if m = method then some n else assocFind rest method

/-- Association-list update, modelling `r.trees[method] = root`. -/
def assocSet : List (String × Node) → String → Node → List (String × Node)
  | [], m, n => [(m, n)]
  | (m', n') :: rest, m, n =>
    if m' = m then (m, n) :: rest else (m', n') :: assocSet rest m n

/-- `New` from `router.go`: path auto-correction, trailing-slash redirects,
method-not-allowed handling and automatic OPTIONS replies are enabled by
default; no trees and no custom handlers are set. -/
def New : Router :=
  { trees := []
    redirectTrailingSlash := true
    redirectFixedPath := true
    handleMethodNotAllowed := true
    handleOptions := true
    notFound := none
    methodNotAllowed := none
    panicHandler := none }

/-- The insertion part of `Router.Handle` from `router.go`: select or
lazily create the method's root and add the route to it. -/
def insertRoute (r : Router) (method path : String) (h : Handler) : Except String Router := do
  let root := (assocFind r.trees method).getD emptyNode
  let root2 ← addRoute root path h
  .ok { r with trees := assocSet r.trees method root2 }

/-- `Router.Handle` from `router.go`: registration fails unless the path
begins with a slash (in Go a panic; for the empty path the indexing
`path[0]` itself faults), then the route is inserted into the method's
tree. -/
def handle (r : Router) (method path : String) (h : Handler) : Except String Router :=
  if path.data.head? = some '/' then insertRoute r method path h
  else .error ("path must begin with / in path " ++ path)

/-- `Router.Lookup` from `router.go`: manual lookup of a method + path
combo; an unregistered method yields no handler, no params and no
trailing-slash recommendation. -/
def lookup (r : Router) (method path : String) : Option Handler × Params × Bool :=
  match assocFind r.trees method with
  | some root => getValue root path
  | none => (none, [], false)

/-- Appending one method to the Allow list, from `Router.allowed` in
`router.go`. -/
def appendAllow (allow m : String) : String :=
  if allow.length = 0 then m else allow ++ ", " ++ m

/-- `Router.allowed` from `router.go`: build the Allow list for a path (or
`*`), skipping the requested method and OPTIONS, and appending `, OPTIONS`
whenever the list is non-empty. -/
def allowed (r : Router) (path reqMethod : String) : String :=
  let base :=
    if path = "*" then
      r.trees.foldl (fun allow t =>
        if t.1 = "OPTIONS" then allow else appendAllow allow t.1) ""
    else
      r.trees.foldl (fun allow t =>
        if t.1 = reqMethod ∨ t.1 = "OPTIONS" then allow
        else if (getValue t.2 path).1.isSome then appendAllow allow t.1
        else allow) ""
  if base.length > 0 then base ++ ", OPTIONS" else base

/-- The observable outcome of `Router.ServeHTTP` on one request. -/
inductive Outcome : Type where
  | handler (h : Handler) (ps : Params) : Outcome
  | redirect (code : Nat) (location : String) : Outcome
  | optionsReply (allow : String) : Outcome
  | methodNotAllowed (allow : String) (custom : Option Handler) : Outcome
  | notFound (custom : Option Handler) : Outcome
deriving DecidableEq, Repr

/-- The redirect target used by the trailing-slash branch of
`Router.ServeHTTP` in `router.go`. -/
def tsrTarget (path : String) : String :=
  if path.length > 1 ∧ path.data.getLast? = some '/' then String.mk path.data.dropLast
  else path ++ "/"

/-- The tail of `Router.ServeHTTP` from `router.go`: automatic OPTIONS
replies, 405 Method Not Allowed handling, and the 404 fallback. -/
def serveFallback (r : Router) (method path : String) : Outcome :=
  if method = "OPTIONS" then
    if r.handleOptions then
      if (allowed r path method).length > 0 then .optionsReply (allowed r path method)
      else .notFound r.notFound
    else .notFound r.notFound
  else
    if r.handleMethodNotAllowed then
      if (allowed r path method).length > 0 then
        .methodNotAllowed (allowed r path method) r.methodNotAllowed
      else .notFound r.notFound
    else .notFound r.notFound

/-- `Router.ServeHTTP` from `router.go` as a pure function from a request
(method, path) to its outcome.  Panic recovery concerns live handlers only
and has no counterpart in this pure model. -/
def serveHTTP (r : Router) (method path : String) : Outcome :=
  match assocFind r.trees method with
  | none => serveFallback r method path
  | some root =>
    match getValue root path with
    | (some h, ps, _) => .handler h ps
    | (none, _, tsr) =>
      if method ≠ "CONNECT" ∧ path ≠ "/" then
        if tsr = true ∧ r.redirectTrailingSlash = true then
          .redirect (if method = "GET" then 301 else 307) (tsrTarget path)
        else if r.redirectFixedPath then
          match findCI root (cleanPath path).data r.redirectTrailingSlash with
          | some fixed => .redirect (if method = "GET" then 301 else 307) (String.mk fixed)
          | none => serveFallback r method path
        else serveFallback r method path
      else serveFallback r method path

/-! ## Demonstration routers used by the concrete claims -/

def rud : Router := (handle New "GET" "/user/:name" 7).toOption.getD New

def rfiles : Router := (handle New "GET" "/files/*filepath" 4).toOption.getD New

def r3 : Router := (handle New "GET" "/user/:name" 7).toOption.getD New

def root3 : Node := (assocFind r3.trees "GET").getD emptyNode

def r4 : Router := (handle New "POST" "/x" 5).toOption.getD New

def r6 : Router := (handle New "GET" "/user/:id" 1).toOption.getD New

def rConn : Router := (handle New "CONNECT" "/user/:name" 9).toOption.getD New

/-! ## Claim theorems -/

/-- C9: `New` returns a Router with RedirectTrailingSlash, RedirectFixedPath,
HandleMethodNotAllowed and HandleOptions all true, with no per-method trees
and no NotFound, MethodNotAllowed or PanicHandler handlers set. -/
theorem New_defaults :
    New.redirectTrailingSlash = true ∧ New.redirectFixedPath = true ∧
    New.handleMethodNotAllowed = true ∧ New.handleOptions = true ∧
    New.trees = [] ∧ New.notFound = none ∧
    New.methodNotAllowed = none ∧ New.panicHandler = none :=
  ⟨rfl, rfl, rfl, rfl, rfl, rfl, rfl, rfl⟩

/-- C8: for every Params sequence and every name, `byName` returns the value
of the first pair (in order) whose key equals the name, and the empty string
when no pair has that key; duplicate keys are permitted and only the first
match is returned. -/
theorem byName_first_match (ps : Params) (name : String) :
    byName ps name = ((ps.find? fun p => p.key == name).map Param.value).getD "" := by
  induction ps with
  | nil => rfl
  | cons p rest ih =>
    by_cases h : p.key = name
    · show (if p.key = name then p.value else byName rest name) = _
      rw [if_pos h, List.find?_cons_of_pos _ (by simp [h])]
      rfl
    · show (if p.key = name then p.value else byName rest name) = _
      rw [if_neg h, List.find?_cons_of_neg _ (by simp [h]), ih]

/-- C7: registration fails on the leading-byte check exactly when the pattern
does not start with a slash (for the empty pattern the Go indexing `path[0]`
itself faults); when it does start with a slash, `handle` does not fail on
that check and proceeds to insert the route. -/
theorem handle_leading_slash_check (r : Router) (method path : String) (h : Handler) :
    (path.data.head? ≠ some '/' →
      handle r method path h = .error ("path must begin with / in path " ++ path)) ∧
    (path.data.head? = some '/' →
      handle r method path h = insertRoute r method path h) := by
  constructor <;> intro hp <;> simp [handle, hp]

/-- C7 witness: a pattern without a leading slash is rejected, one with a
leading slash proceeds to insertion. -/
theorem handle_leading_slash_check_witness :
    handle New "GET" "user" 3 = .error "path must begin with / in path user" ∧
    handle New "GET" "/user" 3 = insertRoute New "GET" "/user" 3 :=
  ⟨(handle_leading_slash_check New "GET" "user" 3).1 (by decide),
   (handle_leading_slash_check New "GET" "/user" 3).2 (by decide)⟩

/-- C1: with `/user/:name` registered under GET, looking up
`GET /user/gopher` yields the registered handler with params
`[("name","gopher")]`, and `GET /user/gopher/` yields no handler with the
trailing-slash-redirect flag set. -/
theorem lookup_user_param_example :
    handle New "GET" "/user/:name" 7 = Except.ok rud ∧
    lookup rud "GET" "/user/gopher" = (some 7, [Param.mk "name" "gopher"], false) ∧
    (lookup rud "GET" "/user/gopher/").1 = none ∧
    (lookup rud "GET" "/user/gopher/").2.2 = true :=
  ⟨rfl, by decide, by decide, by decide⟩

/-- C2: with `/files/*filepath` registered under GET, looking up
`GET /files/a/b.txt` yields params `[("filepath","/a/b.txt")]` (the
catch-all value includes the leading slash) and `GET /files/` yields params
`[("filepath","/")]`. -/
theorem lookup_catchAll_example :
    handle New "GET" "/files/*filepath" 4 = Except.ok rfiles ∧
    lookup rfiles "GET" "/files/a/b.txt" = (some 4, [Param.mk "filepath" "/a/b.txt"], false) ∧
    lookup rfiles "GET" "/files/" = (some 4, [Param.mk "filepath" "/"], false) :=
  ⟨rfl, by decide, by decide⟩

/-- C6: registering `/user/:id` and then `/user/:name` under the same method
fails at registration time with a wildcard-conflict error, and the earlier
registration remains in effect. -/
theorem wildcard_conflict_registration :
    handle New "GET" "/user/:id" 1 = Except.ok r6 ∧
    handle r6 "GET" "/user/:name" 2 =
      Except.error "conflicting wildcard at the same trie position" ∧
    lookup r6 "GET" "/user/gopher" = (some 1, [Param.mk "id" "gopher"], false) :=
  ⟨rfl, rfl, by decide⟩

/-- C4: with only `POST /x` registered and HandleMethodNotAllowed enabled, a
GET request for `/x` yields a method-not-allowed outcome whose Allow list is
`POST, OPTIONS`, not a not-found outcome; when no other method tree matches
the path, the request falls through to not-found. -/
theorem methodNotAllowed_example :
    serveHTTP r4 "GET" "/x" = Outcome.methodNotAllowed "POST, OPTIONS" none ∧
    serveHTTP r4 "GET" "/y" = Outcome.notFound none :=
  ⟨by decide, by decide⟩

/-- The OPTIONS / method-not-allowed / not-found tail of the dispatch never
produces a redirect outcome. -/
theorem serveFallback_ne_redirect (r : Router) (method path : String)
    (code : Nat) (loc : String) :
    serveFallback r method path ≠ Outcome.redirect code loc := by
  unfold serveFallback
  repeat' split
  all_goals intro hcon; exact Outcome.noConfusion hcon

/-- C10: for every CONNECT request and for every request whose path is
exactly `/`, `serveHTTP` never issues a trailing-slash or fixed-path
redirect when no handler matches; such requests fall through to the
OPTIONS / method-not-allowed / not-found handling. -/
theorem no_redirect_for_connect_or_root (r : Router) (method path : String)
    (hcp : method = "CONNECT" ∨ path = "/") (code : Nat) (loc : String) :
    serveHTTP r method path ≠ Outcome.redirect code loc := by
  unfold serveHTTP
  split
  · exact serveFallback_ne_redirect r method path code loc
  · split
    · intro hcon; exact Outcome.noConfusion hcon
    · rw [if_neg]
      · exact serveFallback_ne_redirect r method path code loc
      · rintro ⟨h1, h2⟩
        rcases hcp with h | h
        · exact h1 h
        · exact h2 h

/-- C10 witness: a CONNECT request is never redirected. -/
theorem no_redirect_for_connect_or_root_witness :
    serveHTTP New "CONNECT" "/path" ≠ Outcome.redirect 307 "/path/" :=
  no_redirect_for_connect_or_root New "CONNECT" "/path" (Or.inl rfl) 307 "/path/"

/-- C3 counterexample: for a CONNECT request the claim fails as stated.
With `/user/:name` registered under CONNECT, the lookup for
`CONNECT /user/gopher/` reports a trailing-slash-redirect opportunity and
no handler, yet the dispatch outcome is not-found, not a 307 redirect. -/
theorem serveHTTP_redirect_claim_counterexample :
    (assocFind rConn.trees "CONNECT").isSome = true ∧
    lookup rConn "CONNECT" "/user/gopher/" = (none, [], true) ∧
    serveHTTP rConn "CONNECT" "/user/gopher/" = Outcome.notFound none :=
  ⟨by decide, by decide, by decide⟩

/-- C3 amended: for every request whose method has a registered tree but
matches no handler, provided the method is not CONNECT and the path is not
`/`: if the lookup reported a trailing-slash-redirect opportunity and
RedirectTrailingSlash is enabled, or if RedirectFixedPath is enabled and the
case-insensitive search over the cleaned path succeeds, `serveHTTP`
responds with a redirect whose status code is 301 for GET and 307 for every
other method, instead of invoking any handler. -/
theorem serveHTTP_redirect_on_miss (r : Router) (method path : String) (root : Node)
    (hroot : assocFind r.trees method = some root)
    (hmiss : (getValue root path).1 = none)
    (hconn : method ≠ "CONNECT") (hslash : path ≠ "/")
    (hred : ((getValue root path).2.2 = true ∧ r.redirectTrailingSlash = true) ∨
            (r.redirectFixedPath = true ∧
              (findCI root (cleanPath path).data r.redirectTrailingSlash).isSome = true)) :
    ∃ loc, serveHTTP r method path =
      Outcome.redirect (if method = "GET" then 301 else 307) loc := by
  unfold serveHTTP
  split
  · next hn => rw [hroot] at hn; exact Option.noConfusion hn
  · next root2 hsome =>
    rw [hroot] at hsome
    injection hsome with hr
    subst hr
    split
    · next h ps x heq =>
      rw [heq] at hmiss
      exact Option.noConfusion hmiss
    · next ps tsr heq =>
      rw [if_pos ⟨hconn, hslash⟩]
      rw [heq] at hred
      simp only at hred
      rcases hred with ⟨htsr, hrts⟩ | ⟨hrfp, hci⟩
      · rw [if_pos ⟨htsr, hrts⟩]
        exact ⟨tsrTarget path, rfl⟩
      · by_cases hc : tsr = true ∧ r.redirectTrailingSlash = true
        · rw [if_pos hc]
          exact ⟨tsrTarget path, rfl⟩
        · rw [if_neg hc, if_pos hrfp]
          obtain ⟨fixed, hfix⟩ := Option.isSome_iff_exists.mp hci
          rw [hfix]
          exact ⟨String.mk fixed, rfl⟩

/-- C3 amended witness: with `/user/:name` under GET, the miss on
`GET /user/gopher/` carries a trailing-slash recommendation and the dispatch
redirects with status 301. -/
theorem serveHTTP_redirect_on_miss_witness :
    ∃ loc, serveHTTP r3 "GET" "/user/gopher/" =
      Outcome.redirect (if "GET" = "GET" then 301 else 307) loc :=
  serveHTTP_redirect_on_miss r3 "GET" "/user/gopher/" root3 rfl rfl
    (by decide) (by decide) (Or.inl ⟨rfl, rfl⟩)

/-! ## Path cleaning: structural lemmas for idempotence -/

theorem splitSlash_ne_nil (l : List Char) : splitSlash l ≠ [] := by
  cases l with
  | nil => simp [splitSlash]
  | cons c rest =>
    simp only [splitSlash]
    split
    · simp
    · split <;> simp

theorem mem_splitSlash_no_slash :
    ∀ (l : List Char) (s : List Char), s ∈ splitSlash l → '/' ∉ s := by
  intro l
  induction l with
  | nil =>
    intro s hs
    simp [splitSlash] at hs
    simp [hs]
  | cons c rest ih =>
    intro s hs
    simp only [splitSlash] at hs
    by_cases hc : c = '/'
    · rw [if_pos hc] at hs
      rcases List.mem_cons.mp hs with h | h
      · simp [h]
      · exact ih s h
    · rw [if_neg hc] at hs
      cases hsp : splitSlash rest with
      | nil => exact absurd hsp (splitSlash_ne_nil rest)
      | cons s0 ss =>
        rw [hsp] at hs
        rcases List.mem_cons.mp hs with h | h
        · subst h
          intro hmem
          rcases List.mem_cons.mp hmem with h | h
          · exact hc h.symm
          · exact ih s0 (by rw [hsp]; exact List.mem_cons_self s0 ss) h
        · exact ih s (by rw [hsp]; exact List.mem_cons_of_mem s0 h)

theorem splitSlash_no_slash (l : List Char) (hl : '/' ∉ l) : splitSlash l = [l] := by
  induction l with
  | nil => rfl
  | cons c rest ih =>
    have hc : c ≠ '/' := fun h => hl (by rw [h]; exact List.mem_cons_self '/' rest)
    have hrest : '/' ∉ rest := fun h => hl (List.mem_cons_of_mem c h)
    simp only [splitSlash]
    rw [if_neg hc, ih hrest]

theorem splitSlash_append (s t : List Char) (hs : '/' ∉ s) :
    splitSlash (s ++ '/' :: t) = s :: splitSlash t := by
  induction s with
  | nil => simp [splitSlash]
  | cons c s2 ih =>
    have hc : c ≠ '/' := fun h => hs (by rw [h]; exact List.mem_cons_self '/' s2)
    have hs2 : '/' ∉ s2 := fun h => hs (List.mem_cons_of_mem c h)
    simp only [List.cons_append, splitSlash, List.append_eq]
    rw [if_neg hc, ih hs2]

theorem splitSlash_joinSegs :
    ∀ segs : List (List Char), segs ≠ [] → (∀ s ∈ segs, '/' ∉ s) →
      splitSlash (joinSegs segs) = segs := by
  intro segs
  induction segs with
  | nil => intro hne _; exact absurd rfl hne
  | cons s rest ih =>
    intro _ hno
    cases rest with
    | nil =>
      show splitSlash (joinSegs [s]) = [s]
      rw [joinSegs]
      exact splitSlash_no_slash s (hno s (List.mem_cons_self s []))
    | cons t rest2 =>
      show splitSlash (joinSegs (s :: t :: rest2)) = s :: t :: rest2
      rw [joinSegs, splitSlash_append s _ (hno s (List.mem_cons_self s (t :: rest2)))]
      rw [ih (by simp) (fun x hx => hno x (List.mem_cons_of_mem s hx))]

theorem resolveSegs_mem :
    ∀ (l acc : List (List Char)) (x : List Char), x ∈ resolveSegs acc l →
      x ∈ acc ∨ (x ∈ l ∧ goodSeg x) := by
  intro l
  induction l with
  | nil =>
    intro acc x hx
    simp [resolveSegs] at hx
    exact Or.inl hx
  | cons s rest ih =>
    intro acc x hx
    simp only [resolveSegs] at hx
    by_cases h1 : s = [] ∨ s = ['.']
    · rw [if_pos h1] at hx
      rcases ih acc x hx with h | ⟨hm, hg⟩
      · exact Or.inl h
      · exact Or.inr ⟨List.mem_cons_of_mem s hm, hg⟩
    · rw [if_neg h1] at hx
      by_cases h2 : s = ['.', '.']
      · rw [if_pos h2] at hx
        rcases ih acc.tail x hx with h | ⟨hm, hg⟩
        · exact Or.inl (List.mem_of_mem_tail h)
        · exact Or.inr ⟨List.mem_cons_of_mem s hm, hg⟩
      · rw [if_neg h2] at hx
        rcases ih (s :: acc) x hx with h | ⟨hm, hg⟩
        · rcases List.mem_cons.mp h with h | h
          · subst h
            exact Or.inr ⟨List.mem_cons_self x rest,
              fun he => h1 (Or.inl he), fun he => h1 (Or.inr he), h2⟩
          · exact Or.inl h
        · exact Or.inr ⟨List.mem_cons_of_mem s hm, hg⟩

theorem resolveSegs_id :
    ∀ l acc : List (List Char), (∀ s ∈ l, goodSeg s) →
      resolveSegs acc l = acc.reverse ++ l := by
  intro l
  induction l with
  | nil => intro acc _; simp [resolveSegs]
  | cons s rest ih =>
    intro acc hl
    have hgs := hl s (List.mem_cons_self s rest)
    have hrest : ∀ x ∈ rest, goodSeg x := fun x hx => hl x (List.mem_cons_of_mem s hx)
    simp only [resolveSegs]
    rw [if_neg, if_neg (hgs.2.2), ih (s :: acc) hrest]
    · simp
    · rintro (h | h)
      · exact hgs.1 h
      · exact hgs.2.1 h

/-- C5: path cleaning is idempotent, `cleanPath "/a/../b//c" = "/b/c"` and
`cleanPath "" = "/"`. -/
theorem cleanPath_spec :
    (∀ p : String, cleanPath (cleanPath p) = cleanPath p) ∧
    cleanPath "/a/../b//c" = "/b/c" ∧ cleanPath "" = "/" := by
  refine ⟨fun p => ?_, by decide, by decide⟩
  have hmem := resolveSegs_mem (splitSlash p.data) []
  have hno : ∀ x ∈ resolveSegs [] (splitSlash p.data), '/' ∉ x := by
    intro x hx
    rcases hmem x hx with h | ⟨hm, _⟩
    · simp at h
    · exact mem_splitSlash_no_slash p.data x hm
  have hgood : ∀ x ∈ resolveSegs [] (splitSlash p.data), goodSeg x := by
    intro x hx
    rcases hmem x hx with h | ⟨_, hg⟩
    · simp at h
    · exact hg
  show String.mk ('/' :: joinSegs (resolveSegs []
      (splitSlash ('/' :: joinSegs (resolveSegs [] (splitSlash p.data)))))) =
    String.mk ('/' :: joinSegs (resolveSegs [] (splitSlash p.data)))
  have hsplit : splitSlash ('/' :: joinSegs (resolveSegs [] (splitSlash p.data))) =
      [] :: splitSlash (joinSegs (resolveSegs [] (splitSlash p.data))) := by
    simp [splitSlash]
  rw [hsplit]
  by_cases hseg : resolveSegs [] (splitSlash p.data) = []
  · rw [hseg]
    rfl
  · rw [splitSlash_joinSegs _ hseg hno]
    have hres : resolveSegs [] ([] :: resolveSegs [] (splitSlash p.data)) =
        resolveSegs [] (resolveSegs [] (splitSlash p.data)) := by
      simp [resolveSegs]
    rw [hres, resolveSegs_id _ [] hgood]
    rfl

end Httprouter
